import Mathlib

/-!
Shallow embedding of the note/pitch utilities of the TCsinger-App repository
(src/utils/audio_utils.py and the synthesis stub in src/utils/model_loader.py).

Python strings are modelled as Lean `String`s restricted to the ASCII
behaviour of the Python string predicates used by the code (`str.isdigit`,
`str.lower`, `str.split` whitespace, single-character `int(...)`), floats as
exact rationals or reals, NumPy arrays as lists, and raised exceptions as
`Option`/`Except` values.
-/

namespace TCSinger

/-- Python `int(q)` on a float: truncation toward zero. -/
def pyInt (q : ℚ) : ℤ :=
  if q < 0 then ⌈q⌉ else ⌊q⌋

/-- Value of an ASCII decimal digit character. -/
def digitVal (c : Char) : ℕ := c.toNat - ('0').toNat

/-- Python `int(c)` for a single character `c`: succeeds exactly on decimal
digits (ASCII model), returning the digit value. -/
def pyIntChar (c : Char) : Option ℕ :=
  if c.isDigit then some (digitVal c) else none

/-- The three `ValueError`s raised by `note_to_midi`, distinguished by their
messages ("Invalid note name", "Invalid octave in note name", "Invalid note"). -/
inductive NoteError where
  | InvalidNoteName
  | InvalidOctave
  | InvalidNote
deriving DecidableEq, Repr

/-- The fixed `note_map` dictionary of `note_to_midi`: pitch-class spelling to
semitone offset.  Dictionary lookup on the literal dict is modelled as a chain
of equality tests in the dict's insertion order. -/
def lookupNote (s : String) : Option ℕ :=
  if s = "C" then some 0
  else if s = "C#" then some 1
  else if s = "Db" then some 1
  else if s = "D" then some 2
  else if s = "D#" then some 3
  else if s = "Eb" then some 3
  else if s = "E" then some 4
  else if s = "F" then some 5
  else if s = "F#" then some 6
  else if s = "Gb" then some 6
  else if s = "G" then some 7
  else if s = "G#" then some 8
  else if s = "Ab" then some 8
  else if s = "A" then some 9
  else if s = "A#" then some 10
  else if s = "Bb" then some 10
  else if s = "B" then some 11
  else none

/-- The pitch-class spelling part of a note name: every character before the
last one (`note_name[:-1]`). -/
def spellingOf (s : String) : String := String.mk s.data.dropLast

/-- The octave character of a note name: its last character (`note_name[-1]`).
The default is irrelevant: it is only read when the string is nonempty. -/
def lastChar (s : String) : Char := s.data.getLastD ' '

/-- `note_to_midi` from src/utils/audio_utils.py:
length check, `int` of the last character, dictionary lookup of the
remaining spelling, then `note_map[note] + (octave + 1) * 12`. -/
def note_to_midi (note_name : String) : Except NoteError ℕ :=
  if note_name.data.length < 2 then .error .InvalidNoteName
  else
    match pyIntChar (lastChar note_name) with
    | none => .error .InvalidOctave
    | some octave =>
      match lookupNote (spellingOf note_name) with
      | none => .error .InvalidNote
      | some v => .ok (v + (octave + 1) * 12)

/-- `generate_silence` from src/utils/audio_utils.py:
`np.zeros(int(duration * sr))`; `np.zeros` raises `ValueError` on a negative
count, modelled as `none`. -/
def generate_silence (duration : ℚ) (sr : ℤ) : Option (List ℚ) :=
  let n := pyInt (duration * (sr : ℚ))
  if n < 0 then none else some (List.replicate n.toNat 0)

/-- A parsed note token: the three dict shapes produced by `parse_notes`
(`{'type': 'rest'}`, `{'type': 'midi', 'value': n}`, `{'type': 'name', 'value': s}`). -/
inductive NoteToken where
  | rest
  | midi (value : ℕ)
  | name (value : String)
deriving DecidableEq, Repr

/-- The whitespace characters of Python `str.split()` (ASCII model):
space, tab, newline, carriage return, vertical tab, form feed. -/
def pyIsSpace (c : Char) : Bool :=
  c == ' ' || c == '\t' || c == '\n' || c == '\r' || c == '\x0b' || c == '\x0c'

theorem dropWhile_length_le {α : Type _} (p : α → Bool) (l : List α) :
    (l.dropWhile p).length ≤ l.length := by
  induction l with
  | nil => simp
  | cons a l ih =>
    by_cases h : p a <;> simp [List.dropWhile_cons, h] <;> omega

/-- A non-whitespace (word) character. -/
def notSpace (c : Char) : Bool := !pyIsSpace c

/-- Python `str.split()` with no separator: maximal runs of non-whitespace
characters, leading/trailing/repeated whitespace dropped.  (The preceding
`.strip()` in the source is absorbed: `split()` already ignores leading and
trailing whitespace.) -/
def pySplit (l : List Char) : List (List Char) :=
  match h : l.dropWhile pyIsSpace with
  | [] => []
  | c :: cs => (c :: cs.takeWhile notSpace) :: pySplit (cs.dropWhile notSpace)
termination_by l.length
decreasing_by
  have h1 : (l.dropWhile pyIsSpace).length ≤ l.length := dropWhile_length_le _ _
  rw [h] at h1
  have h2 : (cs.dropWhile notSpace).length ≤ cs.length := dropWhile_length_le _ _
  simp only [List.length_cons] at h1
  omega

/-- Python `str.lower` on a character (ASCII model). -/
def pyLower (c : Char) : Char :=
  if ('A') ≤ c ∧ c ≤ ('Z') then Char.ofNat (c.toNat + 32) else c

/-- Python `word.isdigit()` (ASCII model): nonempty and all decimal digits. -/
def pyIsDigitStr (w : List Char) : Bool :=
  !(w.isEmpty) && w.all Char.isDigit

/-- Decimal value of a digit string, most significant digit first. -/
def digitsVal (w : List Char) : ℕ :=
  w.foldl (fun acc c => 10 * acc + digitVal c) 0

/-- Python `int(w)` on a word, modelled for the call site in `parse_notes`:
succeeds exactly when the word is a nonempty all-digit string (ASCII model). -/
def pyIntStr (w : List Char) : Option ℕ :=
  if pyIsDigitStr w then some (digitsVal w) else none

/-- The token built from one word of `parse_notes`, with the fallible
`int(note)` call kept explicit: `rest` test, then `isdigit` test, else a raw
name token. -/
def classifyWord (w : List Char) : Option NoteToken :=
  if String.mk (w.map pyLower) = "rest" then some .rest
  else if pyIsDigitStr w then (pyIntStr w).map .midi
  else some (.name (String.mk w))

/-- `parse_notes` from src/utils/audio_utils.py, with every fallible step kept
as an `Option`: split on whitespace, then classify each word in order. -/
def parse_notesE (notes_str : String) : Option (List NoteToken) :=
  (pySplit notes_str.data).mapM classifyWord

/-- The total value of `parse_notes`: the token list it returns. -/
def parse_notes (notes_str : String) : List NoteToken :=
  (parse_notesE notes_str).getD []

/-- Modelled from the spec's words (for comparison with `pySplit`, which is
translated from the source): the whitespace-delimited words of the input —
split at whitespace characters and keep the nonempty chunks, in order. -/
def specWords (l : List Char) : List (List Char) :=
  (l.splitOnP pyIsSpace).filter (fun w => !w.isEmpty)

/-- Modelled from the spec's words (for comparison with `classifyWord`):
a case-insensitive match with "rest" gives `Rest`; a word consisting entirely
of decimal digits gives `MidiNumber` with the parsed value; anything else
gives `NoteName` with the raw word, unvalidated. -/
def specClassify (w : List Char) : NoteToken :=
  if w.map pyLower = ('r' :: 'e' :: 's' :: 't' :: []) then NoteToken.rest
  else if w ≠ [] ∧ ∀ c ∈ w, c.isDigit then NoteToken.midi (digitsVal w)
  else NoteToken.name (String.mk w)

/-- Modelled from the spec's words: one token per whitespace-delimited word,
in input order, each classified by the priority rules of `specClassify`. -/
def parse_notes_spec (s : String) : List NoteToken :=
  (specWords s.data).map specClassify

/-- The chunks `splitOnP` produces after the first one (proof-side helper for
relating `pySplit` to `specWords`). -/
def splitRest (p : Char → Bool) (l : List Char) : List (List Char) :=
  match l.dropWhile (fun a => !p a) with
  | [] => []
  | _ :: r => r.splitOnP p

/-- `np.clip(x, -1.0, 1.0)` on one sample. -/
noncomputable def clip1 (x : ℝ) : ℝ := min 1 (max (-1) x)

/-- `np.sqrt(np.mean(audio**2))` of `normalize_audio`: root mean square of the
buffer, with float arithmetic idealised as real arithmetic.  (For the empty
buffer Lean's `0 / 0 = 0` stands in for NumPy's NaN; either way the `rms > 0`
branch is not taken.) -/
noncomputable def rms (audio : List ℝ) : ℝ :=
  Real.sqrt ((audio.map (fun x => x ^ 2)).sum / audio.length)

/-- `normalize_audio` from src/utils/audio_utils.py: if the RMS is positive,
scale by `10 ^ ((target_level - 20 * log10 rms) / 20)`; then clip every sample
to [-1, 1]. -/
noncomputable def normalize_audio (audio : List ℝ) (target_level : ℝ) : List ℝ :=
  let r := rms audio
  let scaled :=
    if r > 0 then
      let current_db := 20 * Real.logb 10 r
      let gain_db := target_level - current_db
      let gain_linear := (10 : ℝ) ^ (gain_db / 20)
      audio.map (fun x => x * gain_linear)
    else audio
  scaled.map clip1

/-- `TCSinger2Model.synthesize` from src/utils/model_loader.py: ignores the
audio prompt, lyrics, note string and cfg scale, and returns
`torch.zeros(int(sample_rate * duration))` with `sample_rate = 48000` and
`duration = 3.0`. -/
def synthesize (audio_prompt : List ℚ) (text : String) (notes : String)
    (cfg_scale : ℚ) : List ℚ :=
  let sample_rate : ℚ := 48000
  let duration : ℚ := 3
  List.replicate (pyInt (sample_rate * duration)).toNat 0

/-! ### Helper lemmas -/

theorem dropWhile_head_not {α : Type _} (q : α → Bool) (l : List α) (b : α) (r : List α)
    (h : l.dropWhile q = b :: r) : q b = false := by
  induction l with
  | nil => simp at h
  | cons a t ih =>
    rw [List.dropWhile_cons] at h
    by_cases ha : q a
    · simp [ha] at h; exact ih h
    · simp [ha] at h
      obtain ⟨rfl, -⟩ := h
      simpa using ha

theorem splitOnP_eq_take (p : Char → Bool) (l : List Char) :
    l.splitOnP p = l.takeWhile (fun a => !p a) :: splitRest p l := by
  induction l with
  | nil => simp [splitRest]
  | cons a t ih =>
    by_cases h : p a
    · simp [List.splitOnP_cons, h, List.takeWhile_cons, splitRest, List.dropWhile_cons]
    · simp [List.splitOnP_cons, h, ih, List.takeWhile_cons, splitRest, List.dropWhile_cons]

theorem splitRest_filter (t : List Char) :
    (splitRest pyIsSpace t).filter (fun w => !w.isEmpty)
      = specWords (t.dropWhile notSpace) := by
  unfold splitRest
  have hns : (fun a => !pyIsSpace a) = notSpace := by
    funext a; simp [notSpace]
  rw [hns]
  cases hd : t.dropWhile notSpace with
  | nil => simp [specWords]
  | cons b r =>
    have hb : notSpace b = false := dropWhile_head_not _ _ _ _ hd
    have hb2 : pyIsSpace b = true := by simpa [notSpace] using hb
    simp [specWords, List.splitOnP_cons, hb2]

theorem specWords_of_dropWhile_nil (l : List Char) (h : l.dropWhile pyIsSpace = []) :
    specWords l = [] := by
  induction l with
  | nil => simp [specWords]
  | cons a t ih =>
    rw [List.dropWhile_cons] at h
    by_cases ha : pyIsSpace a
    · rw [if_pos ha] at h
      have := ih h
      simpa [specWords, List.splitOnP_cons, ha] using this
    · rw [if_neg ha] at h
      simp at h

theorem specWords_of_dropWhile_cons (l : List Char) (c : Char) (cs : List Char)
    (h : l.dropWhile pyIsSpace = c :: cs) :
    specWords l = (c :: cs.takeWhile notSpace) :: specWords (cs.dropWhile notSpace) := by
  induction l with
  | nil => simp at h
  | cons a t ih =>
    rw [List.dropWhile_cons] at h
    by_cases ha : pyIsSpace a
    · rw [if_pos ha] at h
      have := ih h
      simpa [specWords, List.splitOnP_cons, ha] using this
    · rw [if_neg ha] at h
      obtain ⟨rfl, rfl⟩ := List.cons.inj h
      have key := splitRest_filter t
      have hns : (fun x => !pyIsSpace x) = notSpace := by funext x; simp [notSpace]
      simp only [specWords] at key ⊢
      rw [List.splitOnP_cons, if_neg ha, splitOnP_eq_take pyIsSpace t]
      simp only [List.modifyHead, List.filter_cons, List.isEmpty_cons, Bool.not_false,
        if_pos trivial, hns]
      rw [key]

theorem pySplit_eq_specWords (l : List Char) : pySplit l = specWords l := by
  induction l using pySplit.induct with
  | case1 l h =>
    rw [pySplit, h, specWords_of_dropWhile_nil l h]
  | case2 l c cs h ih =>
    rw [specWords_of_dropWhile_cons l c cs h, pySplit, h]
    show (c :: cs.takeWhile notSpace) :: pySplit (cs.dropWhile notSpace) = _
    rw [ih]

theorem classifyWord_eq (w : List Char) : classifyWord w = some (specClassify w) := by
  unfold classifyWord specClassify
  have h1 : (String.mk (w.map pyLower) = "rest")
      ↔ w.map pyLower = ('r' :: 'e' :: 's' :: 't' :: []) := by
    rw [String.ext_iff]
  have h2 : (pyIsDigitStr w = true) ↔ (w ≠ [] ∧ ∀ c ∈ w, c.isDigit) := by
    simp [pyIsDigitStr, List.isEmpty_iff]
  by_cases hr : w.map pyLower = ('r' :: 'e' :: 's' :: 't' :: [])
  · rw [if_pos (h1.mpr hr), if_pos hr]
  · rw [if_neg (fun hh => hr (h1.mp hh)), if_neg hr]
    by_cases hd : pyIsDigitStr w = true
    · rw [if_pos hd, if_pos (h2.mp hd)]
      simp [pyIntStr, hd]
    · rw [if_neg hd, if_neg (fun hh => hd (h2.mpr hh))]

theorem mapM_classifyWord (ws : List (List Char)) :
    ws.mapM classifyWord = some (ws.map specClassify) := by
  induction ws with
  | nil => rfl
  | cons w t ih =>
    rw [List.mapM_cons, classifyWord_eq, ih]
    rfl

theorem parse_notesE_eq (s : String) :
    parse_notesE s = some (parse_notes_spec s) := by
  unfold parse_notesE parse_notes_spec
  rw [pySplit_eq_specWords, mapM_classifyWord]

theorem parse_notes_eq (s : String) : parse_notes s = parse_notes_spec s := by
  rw [parse_notes, parse_notesE_eq]
  rfl

theorem digitVal_le (c : Char) (h : c.isDigit = true) : digitVal c ≤ 9 := by
  simp only [Char.isDigit, Bool.and_eq_true, decide_eq_true_eq] at h
  have h2 : c.val.toNat ≤ (57 : UInt32).toNat := UInt32.le_def.mp h.2
  have h57 : (57 : UInt32).toNat = 57 := rfl
  have h0 : ('0').val.toNat = 48 := rfl
  simp only [digitVal, Char.toNat, h0]
  omega

theorem mk_data (s : String) : String.mk s.data = s := by
  cases s
  rfl

theorem data_push (s : String) (c : Char) : (s.push c).data = s.data ++ (c :: []) := by
  cases s
  rfl

theorem lookup_step {s lit : String} {k v : ℕ} {rest : Option ℕ}
    (h : (if s = lit then some k else rest) = some v)
    (hl : lit.data ≠ [] ∧ k ≤ 11)
    (hr : rest = some v → s.data ≠ [] ∧ v ≤ 11) :
    s.data ≠ [] ∧ v ≤ 11 := by
  by_cases e : s = lit
  · rw [if_pos e] at h
    injection h with hv
    subst e
    subst hv
    exact hl
  · rw [if_neg e] at h
    exact hr h

theorem lookupNote_spec (s : String) (v : ℕ) (h : lookupNote s = some v) :
    s.data ≠ [] ∧ v ≤ 11 := by
  unfold lookupNote at h
  repeat refine lookup_step h (by decide) (fun h => ?_)
  exact Option.noConfusion h

theorem note_to_midi_push (s : String) (c : Char) (hc : c.isDigit = true)
    (hs : s.data ≠ []) :
    note_to_midi (s.push c) =
      match lookupNote s with
      | some v => Except.ok (v + (digitVal c + 1) * 12)
      | none => Except.error NoteError.InvalidNote := by
  unfold note_to_midi
  have hlp : 0 < s.data.length := List.length_pos.mpr hs
  have hlen : ¬ (s.push c).data.length < 2 := by
    rw [data_push]
    simp only [List.length_append, List.length_cons, List.length_nil]
    omega
  rw [if_neg hlen]
  have hlast : lastChar (s.push c) = c := by
    rw [lastChar, data_push, List.getLastD_concat]
  have hspell : spellingOf (s.push c) = s := by
    rw [spellingOf, data_push, List.dropLast_concat, mk_data]
  rw [hlast, hspell]
  simp only [pyIntChar, hc, if_true]
  cases hlk : lookupNote s
  · rfl
  · rfl

theorem note_to_midi_ok_bounds (s : String) (m : ℕ) (h : note_to_midi s = .ok m) :
    12 ≤ m ∧ m ≤ 131 := by
  unfold note_to_midi at h
  by_cases h1 : s.data.length < 2
  · rw [if_pos h1] at h
    exact Except.noConfusion h
  · rw [if_neg h1] at h
    by_cases hd : (lastChar s).isDigit = true
    · rw [show pyIntChar (lastChar s) = some (digitVal (lastChar s)) from by
        simp [pyIntChar, hd]] at h
      cases hlk : lookupNote (spellingOf s) with
      | none =>
        rw [hlk] at h
        exact Except.noConfusion h
      | some v =>
        rw [hlk] at h
        injection h with hm
        have hv := (lookupNote_spec _ _ hlk).2
        have hc := digitVal_le _ hd
        omega
    · rw [show pyIntChar (lastChar s) = none from by simp [pyIntChar, hd]] at h
      exact Except.noConfusion h



theorem note_to_midi_short (s : String) (h1 : s.data.length < 2) :
    note_to_midi s = .error .InvalidNoteName := by
  unfold note_to_midi
  rw [if_pos h1]

theorem note_to_midi_octave (s : String) (h1 : ¬ s.data.length < 2)
    (hd : (lastChar s).isDigit = false) :
    note_to_midi s = .error .InvalidOctave := by
  unfold note_to_midi
  rw [if_neg h1, show pyIntChar (lastChar s) = none from by simp [pyIntChar, hd]]

theorem note_to_midi_badnote (s : String) (h1 : ¬ s.data.length < 2)
    (hd : (lastChar s).isDigit = true) (hlk : lookupNote (spellingOf s) = none) :
    note_to_midi s = .error .InvalidNote := by
  unfold note_to_midi
  rw [if_neg h1, show pyIntChar (lastChar s) = some (digitVal (lastChar s)) from by
    simp [pyIntChar, hd], hlk]

theorem note_to_midi_ok (s : String) (v : ℕ) (h1 : ¬ s.data.length < 2)
    (hd : (lastChar s).isDigit = true) (hlk : lookupNote (spellingOf s) = some v) :
    note_to_midi s = .ok (v + (digitVal (lastChar s) + 1) * 12) := by
  unfold note_to_midi
  rw [if_neg h1, show pyIntChar (lastChar s) = some (digitVal (lastChar s)) from by
    simp [pyIntChar, hd], hlk]

theorem note_to_midi_cases (s : String) :
    (note_to_midi s = .error .InvalidNoteName ↔ s.data.length < 2)
    ∧ (note_to_midi s = .error .InvalidOctave ↔
        2 ≤ s.data.length ∧ (lastChar s).isDigit = false)
    ∧ (note_to_midi s = .error .InvalidNote ↔
        2 ≤ s.data.length ∧ (lastChar s).isDigit = true
          ∧ lookupNote (spellingOf s) = none)
    ∧ ((∃ m, note_to_midi s = .ok m) ↔
        2 ≤ s.data.length ∧ (lastChar s).isDigit = true
          ∧ (lookupNote (spellingOf s)).isSome = true) := by
  by_cases h1 : s.data.length < 2
  · have h1' : s.length < 2 := h1
    rw [note_to_midi_short s h1]
    refine ⟨by simp [h1'], by simp; omega, by simp; omega, by simp; omega⟩
  · have h1' : ¬ s.length < 2 := h1
    by_cases hd : (lastChar s).isDigit = true
    · cases hlk : lookupNote (spellingOf s) with
      | none =>
        rw [note_to_midi_badnote s h1 hd hlk]
        refine ⟨by simp; omega, by simp [hd], by simp [hd]; omega, by simp [hd]⟩
      | some v =>
        rw [note_to_midi_ok s v h1 hd hlk]
        refine ⟨by simp; omega, by simp [hd], by simp [hd], by simp [hd]; omega⟩
    · have hd2 : (lastChar s).isDigit = false := by
        cases hh : (lastChar s).isDigit
        · rfl
        · exact absurd hh hd
      rw [note_to_midi_octave s h1 hd2]
      refine ⟨by simp; omega, by simp [hd2]; omega, by simp [hd2], by simp [hd2]⟩

theorem clip1_bounds (y : ℝ) : -1 ≤ clip1 y ∧ clip1 y ≤ 1 := by
  unfold clip1
  constructor
  · exact le_min (by norm_num) (le_max_left _ _)
  · exact min_le_left _ _

theorem normalize_length (audio : List ℝ) (target_level : ℝ) :
    (normalize_audio audio target_level).length = audio.length := by
  unfold normalize_audio
  by_cases h : rms audio > 0 <;> simp [h]

theorem normalize_mem_clip (audio : List ℝ) (target_level : ℝ) (x : ℝ)
    (hx : x ∈ normalize_audio audio target_level) : ∃ y, x = clip1 y := by
  unfold normalize_audio at hx
  simp only at hx
  obtain ⟨y, -, rfl⟩ := List.mem_map.mp hx
  exact ⟨y, rfl⟩

theorem sum_eq_zero_all {l : List ℝ} (hnn : ∀ x ∈ l, 0 ≤ x) (hs : l.sum = 0) :
    ∀ x ∈ l, x = 0 := by
  induction l with
  | nil => simp
  | cons a t ih =>
    simp only [List.sum_cons] at hs
    have ha : 0 ≤ a := hnn a (by simp)
    have ht : 0 ≤ t.sum := List.sum_nonneg (fun x hx => hnn x (by simp [hx]))
    have ha0 : a = 0 := by linarith
    have hts : t.sum = 0 := by linarith
    intro x hx
    rcases List.mem_cons.mp hx with rfl | hx
    · exact ha0
    · exact ih (fun y hy => hnn y (by simp [hy])) hts x hx

theorem rms_zero_all (audio : List ℝ) (h : rms audio = 0) : ∀ x ∈ audio, x = 0 := by
  intro x hx
  unfold rms at h
  have hnum : 0 ≤ (audio.map (fun y => y ^ 2)).sum := by
    apply List.sum_nonneg
    rintro y hy
    obtain ⟨z, -, rfl⟩ := List.mem_map.mp hy
    positivity
  have hnn : 0 ≤ (audio.map (fun y => y ^ 2)).sum / (audio.length : ℝ) :=
    div_nonneg hnum (by positivity)
  have h0 : (audio.map (fun y => y ^ 2)).sum / (audio.length : ℝ) = 0 :=
    le_antisymm (Real.sqrt_eq_zero'.mp h) hnn
  have hlen : (audio.length : ℝ) ≠ 0 := by
    have hne : audio ≠ [] := List.ne_nil_of_mem hx
    have := List.length_pos.mpr hne
    positivity
  have hsum : (audio.map (fun y => y ^ 2)).sum = 0 := by
    rcases div_eq_zero_iff.mp h0 with hh | hh
    · exact hh
    · exact absurd hh hlen
  have hx2 : x ^ 2 = 0 := by
    refine sum_eq_zero_all ?_ hsum (x ^ 2) (List.mem_map_of_mem _ hx)
    rintro y hy
    obtain ⟨z, -, rfl⟩ := List.mem_map.mp hy
    positivity
  exact (pow_eq_zero_iff (by norm_num)).mp hx2



theorem clip1_zero : clip1 0 = 0 := by
  unfold clip1
  norm_num

theorem normalize_rms_zero (audio : List ℝ) (target_level : ℝ)
    (h : rms audio = 0) : normalize_audio audio target_level = audio := by
  unfold normalize_audio
  simp only [h, gt_iff_lt, lt_irrefl, if_false]
  conv_rhs => rw [show audio = audio.map id from (List.map_id audio).symm]
  apply List.map_congr_left
  intro x hx
  rw [rms_zero_all audio h x hx, clip1_zero]
  rfl

theorem rms_single_zero : rms ((0 : ℝ) :: []) = 0 := by
  unfold rms
  norm_num



theorem synthesize_eq (a : List ℚ) (t n : String) (cf : ℚ) :
    synthesize a t n cf = List.replicate 144000 0 := by
  unfold synthesize pyInt
  norm_num
  simp

theorem gs_neg : generate_silence (-1) 48000 = none := by
  have h1 : pyInt ((-1 : ℚ) * ((48000 : ℤ) : ℚ)) = -48000 := by
    unfold pyInt
    rw [show ((-1 : ℚ) * ((48000 : ℤ) : ℚ)) = (((-48000 : ℤ)) : ℚ) by norm_num]
    rw [if_pos (by norm_num), Int.ceil_intCast]
  unfold generate_silence
  rw [h1, if_pos (by norm_num)]

theorem gs_pos : generate_silence 1 48000 = some (List.replicate 48000 0) := by
  have h1 : pyInt ((1 : ℚ) * ((48000 : ℤ) : ℚ)) = 48000 := by
    unfold pyInt
    rw [show ((1 : ℚ) * ((48000 : ℤ) : ℚ)) = (((48000 : ℤ)) : ℚ) by norm_num]
    rw [if_neg (by norm_num), Int.floor_intCast]
  unfold generate_silence
  rw [h1, if_neg (by norm_num)]
  rfl


theorem push_ne_lit (s : String) (c : Char) (hc : c.isDigit = true)
    (lit : String) (hlit : (lastChar lit).isDigit = false) :
    s.push c ≠ lit := by
  intro h
  have hlast : lastChar (s.push c) = lastChar lit := by rw [h]
  rw [lastChar, data_push, List.getLastD_concat] at hlast
  rw [hlast, hlit] at hc
  exact Bool.noConfusion hc

theorem lookupNote_push_digit (s : String) (c : Char) (hc : c.isDigit = true) :
    lookupNote (s.push c) = none := by
  unfold lookupNote
  rw [if_neg (push_ne_lit s c hc "C" (by decide)),
    if_neg (push_ne_lit s c hc "C#" (by decide)),
    if_neg (push_ne_lit s c hc "Db" (by decide)),
    if_neg (push_ne_lit s c hc "D" (by decide)),
    if_neg (push_ne_lit s c hc "D#" (by decide)),
    if_neg (push_ne_lit s c hc "Eb" (by decide)),
    if_neg (push_ne_lit s c hc "E" (by decide)),
    if_neg (push_ne_lit s c hc "F" (by decide)),
    if_neg (push_ne_lit s c hc "F#" (by decide)),
    if_neg (push_ne_lit s c hc "Gb" (by decide)),
    if_neg (push_ne_lit s c hc "G" (by decide)),
    if_neg (push_ne_lit s c hc "G#" (by decide)),
    if_neg (push_ne_lit s c hc "Ab" (by decide)),
    if_neg (push_ne_lit s c hc "A" (by decide)),
    if_neg (push_ne_lit s c hc "A#" (by decide)),
    if_neg (push_ne_lit s c hc "Bb" (by decide)),
    if_neg (push_ne_lit s c hc "B" (by decide))]

theorem note_to_midi_two_digit (s : String) (c d : Char)
    (hc : c.isDigit = true) (hd : d.isDigit = true) :
    note_to_midi ((s.push c).push d) = Except.error NoteError.InvalidNote := by
  apply note_to_midi_badnote
  · rw [data_push, data_push]
    simp only [List.length_append, List.length_cons, List.length_nil]
    omega
  · rw [lastChar, data_push, List.getLastD_concat]
    exact hd
  · have hsp : spellingOf ((s.push c).push d) = s.push c := by
      rw [spellingOf, data_push ((s.push c)) d, List.dropLast_concat, mk_data]
    rw [hsp]
    exact lookupNote_push_digit s c hc

/-! ### Claim theorems -/

/-- C1: for every pitch-class spelling present in the fixed table and every
decimal octave digit, `note_to_midi` of the spelling followed by the digit
returns the table offset plus (octave + 1) * 12; in particular "C4" gives 60
and "A4" gives 69. -/
theorem C1_note_to_midi_formula :
    (∀ (s : String) (off : ℕ) (c : Char),
      lookupNote s = some off → c.isDigit = true →
      note_to_midi (s.push c) = Except.ok (off + (digitVal c + 1) * 12))
    ∧ note_to_midi "C4" = Except.ok 60 ∧ note_to_midi "A4" = Except.ok 69 := by
  refine ⟨?_, rfl, rfl⟩
  intro s off c hs hc
  rw [note_to_midi_push s c hc (lookupNote_spec s off hs).1, hs]

/-- C1 witness: the formula applied at spelling "G#" (offset 8) and digit 7. -/
theorem C1_note_to_midi_formula_witness :
    note_to_midi (String.push "G#" '7') = Except.ok (8 + (digitVal '7' + 1) * 12) :=
  C1_note_to_midi_formula.1 "G#" 8 '7' (by decide) (by decide)

/-- C2: `parse_notes` agrees with the specification-side parser (one token per
whitespace-delimited word, in input order, priority classification), the token
count equals the word count, and the empty input gives the empty sequence. -/
theorem C2_parse_notes_spec_eq :
    (∀ s : String, parse_notes s = parse_notes_spec s)
    ∧ (∀ s : String, (parse_notes s).length = (specWords s.data).length)
    ∧ parse_notes "" = [] := by
  refine ⟨parse_notes_eq, fun s => ?_, ?_⟩
  · rw [parse_notes_eq]
    unfold parse_notes_spec
    rw [List.length_map]
  · rw [parse_notes_eq]
    rfl

/-- C3: `note_to_midi` fails with `InvalidNoteName` exactly on inputs shorter
than 2 characters, with `InvalidOctave` exactly when the last character is not
a decimal digit, with `InvalidNote` exactly when the leading spelling is not in
the table, and succeeds in every other case; in particular "H9" fails with
`InvalidNote` and "C" fails for being too short. -/
theorem C3_note_to_midi_failures :
    (∀ s : String,
      (note_to_midi s = Except.error NoteError.InvalidNoteName ↔ s.data.length < 2)
      ∧ (note_to_midi s = Except.error NoteError.InvalidOctave ↔
          2 ≤ s.data.length ∧ (lastChar s).isDigit = false)
      ∧ (note_to_midi s = Except.error NoteError.InvalidNote ↔
          2 ≤ s.data.length ∧ (lastChar s).isDigit = true
            ∧ lookupNote (spellingOf s) = none)
      ∧ ((∃ m, note_to_midi s = Except.ok m) ↔
          2 ≤ s.data.length ∧ (lastChar s).isDigit = true
            ∧ (lookupNote (spellingOf s)).isSome = true))
    ∧ note_to_midi "H9" = Except.error NoteError.InvalidNote
    ∧ note_to_midi "C" = Except.error NoteError.InvalidNoteName :=
  ⟨fun s => note_to_midi_cases s, rfl, rfl⟩

/-- C3 witness: the octave characterization applied at "Q!". -/
theorem C3_note_to_midi_failures_witness :
    note_to_midi "Q!" = Except.error NoteError.InvalidOctave :=
  ((C3_note_to_midi_failures.1 "Q!").2.1).mpr ⟨by decide, by decide⟩

/-- C4: parsing is total: the `Option`-instrumented parser never returns
`none`, and invalid spellings such as "H9" are emitted as name tokens by the
parser while the conversion step rejects them. -/
theorem C4_parse_total :
    (∀ s : String, parse_notesE s = some (parse_notes s))
    ∧ parse_notes "H9" = NoteToken.name "H9" :: []
    ∧ note_to_midi "H9" = Except.error NoteError.InvalidNote := by
  refine ⟨fun s => ?_, ?_, rfl⟩
  · rw [parse_notesE_eq, parse_notes_eq]
  · rw [parse_notes_eq]
    rfl

/-- C5 counterexample: at duration -1 and sample rate 48000 the code raises
(`np.zeros` of a negative count, modelled as `none`) instead of returning a
buffer of floor(-1 * 48000) = -48000 samples as the claim would require. -/
theorem C5_counterexample : generate_silence (-1) 48000 = none := gs_neg

/-- C5 (amended to nonnegative duration and sample rate): `generate_silence`
returns exactly floor(duration * sr) zero samples; in particular one second at
48000 Hz gives 48000 zero samples. -/
theorem C5_generate_silence (d : ℚ) (sr : ℤ) (hd : 0 ≤ d) (hsr : 0 ≤ sr) :
    generate_silence d sr = some (List.replicate (⌊d * (sr : ℚ)⌋).toNat 0)
    ∧ ((⌊d * (sr : ℚ)⌋).toNat : ℤ) = ⌊d * (sr : ℚ)⌋
    ∧ (∀ x ∈ List.replicate (⌊d * (sr : ℚ)⌋).toNat (0 : ℚ), x = 0)
    ∧ generate_silence 1 48000 = some (List.replicate 48000 0) := by
  have hprod : (0 : ℚ) ≤ d * (sr : ℚ) := mul_nonneg hd (by exact_mod_cast hsr)
  have hfl : (0 : ℤ) ≤ ⌊d * (sr : ℚ)⌋ := Int.floor_nonneg.mpr hprod
  have hpy : pyInt (d * (sr : ℚ)) = ⌊d * (sr : ℚ)⌋ := by
    unfold pyInt
    rw [if_neg (not_lt.mpr hprod)]
  refine ⟨?_, Int.toNat_of_nonneg hfl, fun x hx => List.eq_of_mem_replicate hx, gs_pos⟩
  unfold generate_silence
  rw [hpy, if_neg (not_lt.mpr hfl)]

/-- C5 witness: the amended claim applied at duration 1 and sample rate 48000. -/
theorem C5_generate_silence_witness :
    generate_silence 1 48000
      = some (List.replicate (⌊(1 : ℚ) * ((48000 : ℤ) : ℚ)⌋).toNat 0) :=
  (C5_generate_silence 1 48000 (by norm_num) (by norm_num)).1

/-- C6: `normalize_audio` preserves the buffer length and every sample of the
result lies in [-1, 1]. -/
theorem C6_normalize_safe (audio : List ℝ) (target_level : ℝ) :
    (normalize_audio audio target_level).length = audio.length
    ∧ ∀ x ∈ normalize_audio audio target_level, -1 ≤ x ∧ x ≤ 1 := by
  refine ⟨normalize_length audio target_level, fun x hx => ?_⟩
  obtain ⟨y, rfl⟩ := normalize_mem_clip audio target_level x hx
  exact clip1_bounds y

/-- C6 witness: length preservation and the bounds at the buffer [0]. -/
theorem C6_normalize_safe_witness :
    (normalize_audio ((0 : ℝ) :: []) (-20)).length = ((0 : ℝ) :: []).length
    ∧ (-1 ≤ (0 : ℝ) ∧ (0 : ℝ) ≤ 1) :=
  ⟨(C6_normalize_safe ((0 : ℝ) :: []) (-20)).1,
   (C6_normalize_safe ((0 : ℝ) :: []) (-20)).2 0
     (by rw [normalize_rms_zero _ _ rms_single_zero]; simp)⟩

/-- C7: on a buffer of RMS zero (pure silence) `normalize_audio` returns the
input unchanged; the embedded function is total, so no error is possible. -/
theorem C7_normalize_zero_rms (audio : List ℝ) (target_level : ℝ)
    (h : rms audio = 0) : normalize_audio audio target_level = audio :=
  normalize_rms_zero audio target_level h

/-- C7 witness: the zero-RMS case applied at the buffer [0]. -/
theorem C7_normalize_zero_rms_witness :
    normalize_audio ((0 : ℝ) :: []) (-20) = (0 : ℝ) :: [] :=
  C7_normalize_zero_rms ((0 : ℝ) :: []) (-20) rms_single_zero

/-- C8: enharmonic spellings convert equally for every octave digit, "C#4" and
"Db4" both give 61, and every offset in the fixed table lies in [0, 11]. -/
theorem C8_enharmonic :
    (∀ c : Char, c.isDigit = true →
      note_to_midi (String.push "C#" c) = note_to_midi (String.push "Db" c)
      ∧ note_to_midi (String.push "D#" c) = note_to_midi (String.push "Eb" c)
      ∧ note_to_midi (String.push "F#" c) = note_to_midi (String.push "Gb" c)
      ∧ note_to_midi (String.push "G#" c) = note_to_midi (String.push "Ab" c)
      ∧ note_to_midi (String.push "A#" c) = note_to_midi (String.push "Bb" c))
    ∧ note_to_midi "C#4" = Except.ok 61 ∧ note_to_midi "Db4" = Except.ok 61
    ∧ (∀ (s : String) (v : ℕ), lookupNote s = some v → v ≤ 11) := by
  refine ⟨?_, rfl, rfl, fun s v h => (lookupNote_spec s v h).2⟩
  intro c hc
  refine ⟨?_, ?_, ?_, ?_, ?_⟩ <;>
    rw [note_to_midi_push _ c hc (by decide), note_to_midi_push _ c hc (by decide)] <;>
    rfl

/-- C8 witness: the enharmonic pairs applied at octave digit 4. -/
theorem C8_enharmonic_witness :
    note_to_midi (String.push "C#" '4') = note_to_midi (String.push "Db" '4') :=
  (C8_enharmonic.1 '4' (by decide)).1

/-- C9: `synthesize` ignores all of its inputs and always returns the same
144000-sample (3 seconds at 48 kHz) all-zero buffer. -/
theorem C9_synthesize_stub :
    (∀ (a : List ℚ) (t n : String) (cf : ℚ) (a2 : List ℚ) (t2 n2 : String) (cf2 : ℚ),
      synthesize a t n cf = synthesize a2 t2 n2 cf2)
    ∧ synthesize [] "" "" 0 = List.replicate 144000 0
    ∧ (∀ (a : List ℚ) (t n : String) (cf : ℚ), ∀ x ∈ synthesize a t n cf, x = 0) := by
  refine ⟨fun a t n cf a2 t2 n2 cf2 => ?_, synthesize_eq [] "" "" 0,
    fun a t n cf x hx => ?_⟩
  · rw [synthesize_eq, synthesize_eq]
  · rw [synthesize_eq] at hx
    exact List.eq_of_mem_replicate hx

/-- C9 witness: input independence and the all-zero property at concrete inputs. -/
theorem C9_synthesize_stub_witness :
    synthesize ((1 : ℚ) :: []) "la" "C4 D4" 2 = synthesize [] "" "" 0
    ∧ (0 : ℚ) = 0 :=
  ⟨C9_synthesize_stub.1 ((1 : ℚ) :: []) "la" "C4 D4" 2 [] "" "" 0,
   C9_synthesize_stub.2.2 [] "" "" 0 0
     (by rw [synthesize_eq]; exact List.mem_replicate.mpr ⟨by norm_num, rfl⟩)⟩

/-- C10: the octave of a successful conversion is the single last character,
so every returned MIDI number lies in [12, 131]; every note name whose octave
part has more than one digit (any string ending in two decimal digits, so the
leading digits fold into the spelling) never succeeds, and in particular "C10"
fails with `InvalidNote`. -/
theorem C10_midi_range :
    (∀ (s : String) (m : ℕ), note_to_midi s = Except.ok m → 12 ≤ m ∧ m ≤ 131)
    ∧ (∀ (s : String) (c d : Char), c.isDigit = true → d.isDigit = true →
        ∀ m : ℕ, note_to_midi ((s.push c).push d) ≠ Except.ok m)
    ∧ note_to_midi "C10" = Except.error NoteError.InvalidNote := by
  refine ⟨note_to_midi_ok_bounds, fun s c d hc hd m hok => ?_, rfl⟩
  rw [note_to_midi_two_digit s c d hc hd] at hok
  exact Except.noConfusion hok

/-- C10 witness: the range bound applied at "C4", and the multi-digit-octave
failure applied at "A12". -/
theorem C10_midi_range_witness :
    (12 ≤ 60 ∧ 60 ≤ 131)
    ∧ note_to_midi ((String.push "A" '1').push '2') ≠ Except.ok 69 :=
  ⟨C10_midi_range.1 "C4" 60 rfl,
   C10_midi_range.2.1 "A" '1' '2' (by decide) (by decide) 69⟩

end TCSinger
